import Mathlib

/-!
Verification of the `bb` backup engine (Go sources under `bbackup/backend` and
`bbackup/app.go`) against its natural-language specification.

The Go code is shallowly embedded: the filesystem is an association list from
path strings to byte contents, machine integers become `Nat`/`Int`, `context`
cancellation becomes an explicit countdown of poll points, and fallible code
returns `Option`/`Except`.  Paths are modelled as forward-slash strings (the
code normalises with `filepath.ToSlash` before every comparison).  SHA-256 is
abstracted as an arbitrary deterministic function of the content bytes: every
claim under verification depends only on the hash being a pure function of the
bytes, never on its internals.
-/

set_option autoImplicit false

namespace BB

/-- Byte sequence of a file content. -/
abbrev Content := List Nat

/-- Association-list lookup, modelling reads of a path-keyed map or filesystem. -/
def lookupA {α : Type} : List (String × α) → String → Option α
  | [], _ => none
  | (k', v) :: t, k => if k' = k then some v else lookupA t k

/-- Association-list insert with overwrite, modelling `m[k] = v` / file creation. -/
def insertA {α : Type} : List (String × α) → String → α → List (String × α)
  | [], k, v => [(k, v)]
  | (k', v') :: t, k, v => if k' = k then (k, v) :: t else (k', v') :: insertA t k v

/-- Association-list delete, modelling `os.Remove`. -/
def removeA {α : Type} : List (String × α) → String → List (String × α)
  | [], _ => []
  | (k', v') :: t, k => if k' = k then removeA t k else (k', v') :: removeA t k

theorem lookupA_insertA_self {α : Type} (l : List (String × α)) (k : String) (v : α) :
    lookupA (insertA l k v) k = some v := by
  induction l with
  | nil => simp [insertA, lookupA]
  | cons h t ih =>
    obtain ⟨k', v'⟩ := h
    by_cases hk : k' = k <;> simp [insertA, lookupA, hk, ih]

theorem lookupA_insertA_ne {α : Type} (l : List (String × α)) (k k' : String) (v : α)
    (h : k ≠ k') : lookupA (insertA l k v) k' = lookupA l k' := by
  induction l with
  | nil => simp [insertA, lookupA, h]
  | cons hd t ih =>
    obtain ⟨k₀, v₀⟩ := hd
    by_cases hk : k₀ = k
    · subst hk
      simp [insertA, lookupA, h, ih]
    · simp [insertA, hk, lookupA]
      by_cases hk' : k₀ = k' <;> simp [hk', ih]

/-! ## Content-addressed object store (`cas.go`, `src/unnamed/part_000`) -/

/-- Go `filepath.Join` on already-clean slash components: empty components are
dropped and the rest are joined with a single `/`.  On such components the
`Clean` step of the real `Join` only collapses the slashes adjacent to empty
components, which is what the filter performs. -/
def goJoin (parts : List String) : String :=
  match parts.filter (fun p => p ≠ "") with
  | [] => ""
  | p :: rest => rest.foldl (fun acc q => acc ++ "/" ++ q) p

/-- Embedding of `getObjectPath` (cas.go): for a hash of length at least 4 the
object lives at `objects/<h[0:2]>/<h[2:4]>/<h>` under the CAS base directory,
shorter hashes use the degenerate `objects/<h>` form.  Go slices bytes; the
hashes are ASCII hex strings, where bytes and characters coincide. -/
def getObjectPath (casBaseDir hash : String) : String :=
  if hash.length < 4 then
    goJoin [casBaseDir, "objects", hash]
  else
    goJoin [casBaseDir, "objects", hash.take 2, (hash.drop 2).take 2, hash]

/-- A filesystem fragment: mapping from path to file content. -/
abbrev FS := List (String × Content)

/-- Embedding of `StoreFileContent` (cas.go): open and hash the source file,
derive the object path, and copy the content there only when no object exists
at that path yet.  The returned `Bool` records whether a write was performed.
`hashFn` abstracts the streaming SHA-256 hex computation (a pure function of
the file bytes).  Directory creation (`os.MkdirAll`) does not change the
path-to-content map and is not represented. -/
def storeFileContent (hashFn : Content → String) (fs : FS) (casBaseDir filePath : String) :
    Except String (String × FS × Bool) :=
  match lookupA fs filePath with
  | none => .error "failed to open file"
  | some content =>
    let fileHash := hashFn content
    let objectPath := getObjectPath casBaseDir fileHash
    match lookupA fs objectPath with
    | some _ => .ok (fileHash, fs, false)
    | none => .ok (fileHash, insertA fs objectPath content, true)

/-- C8: `getObjectPath` is a deterministic pure function of the hash (it is a
Lean function of its arguments) whose result has the spec shape: for a clean
non-empty base directory, `objects/<h[0:2]>/<h[2:4]>/<h>` when the hash has at
least 4 characters and the degenerate `objects/<h>` otherwise. -/
theorem getObjectPath_spec (base h : String) (hbase : base ≠ "") (hh : h ≠ "") :
    (4 ≤ h.length →
      getObjectPath base h =
        base ++ "/objects/" ++ h.take 2 ++ "/" ++ (h.drop 2).take 2 ++ "/" ++ h) ∧
    (h.length < 4 → getObjectPath base h = base ++ "/objects/" ++ h) := by
  have hdata : h.data ≠ [] := fun hc => hh (String.ext hc)
  constructor
  · intro hlen
    have hlen' : 4 ≤ h.data.length := hlen
    have h2 : h.take 2 ≠ "" := by
      intro hcon
      have := congrArg String.data hcon
      simp only [String.data_take] at this
      have := congrArg List.length this
      simp at this
      omega
    have h4 : (h.drop 2).take 2 ≠ "" := by
      intro hcon
      have := congrArg String.data hcon
      simp only [String.data_take, String.data_drop] at this
      have := congrArg List.length this
      simp at this
      omega
    have hnl : ¬ h.length < 4 := by omega
    simp only [getObjectPath, hnl, if_false, goJoin, List.filter, hbase, h2, h4, hh,
      decide_eq_true_eq, ite_true, ite_false, decide_not]
    simp [hbase, h2, h4, hh]
    apply String.ext
    simp [String.data_append]
  · intro hlen
    simp only [getObjectPath, hlen, if_true, goJoin, List.filter]
    simp [hbase, hh]
    apply String.ext
    simp [String.data_append]

/-- Witness for `getObjectPath_spec` at a concrete base and hashes of both
lengths. -/
theorem getObjectPath_spec_witness :
    getObjectPath "/backup" "abcdef" = "/backup/objects/ab/cd/abcdef" ∧
      getObjectPath "/backup" "ab" = "/backup/objects/ab" := by
  refine ⟨?_, ?_⟩
  · have hs := getObjectPath_spec "/backup" "abcdef" (by decide) (by decide)
    rw [hs.1 (by decide)]
    decide
  · have hs := getObjectPath_spec "/backup" "ab" (by decide) (by decide)
    rw [hs.2 (by decide)]
    decide

/-- C3: storing the same source file twice is idempotent.  If `store(p)`
succeeds with hash `hsh` and leaves the object store in state `fs₁`, then a
second `store(p)` computes the same hash, finds the object already present at
its derived path, performs no write (the returned write flag is `false`), and
leaves the state `fs₁` unchanged. -/
theorem storeFileContent_idempotent (hashFn : Content → String) (fs fs₁ : FS)
    (base p hsh : String) (w : Bool)
    (h : storeFileContent hashFn fs base p = .ok (hsh, fs₁, w)) :
    storeFileContent hashFn fs₁ base p = .ok (hsh, fs₁, false) ∧
      lookupA fs₁ (getObjectPath base hsh) ≠ none := by
  unfold storeFileContent at h ⊢
  cases hp : lookupA fs p with
  | none => rw [hp] at h; exact absurd h (by simp)
  | some content =>
    rw [hp] at h
    simp only at h
    cases hop : lookupA fs (getObjectPath base (hashFn content)) with
    | some c =>
      rw [hop] at h
      simp only [Except.ok.injEq, Prod.mk.injEq] at h
      obtain ⟨h1, h2, h3⟩ := h
      subst h1 h2
      rw [hp, hop]
      simp [hop]
    | none =>
      rw [hop] at h
      simp only [Except.ok.injEq, Prod.mk.injEq] at h
      obtain ⟨h1, h2, h3⟩ := h
      subst h1 h2
      have hne : getObjectPath base (hashFn content) ≠ p := by
        intro he
        rw [he, hp] at hop
        exact Option.noConfusion hop
      rw [lookupA_insertA_ne fs _ p content hne, hp]
      simp only
      rw [lookupA_insertA_self]
      simp

/-- Witness for `storeFileContent_idempotent` at a concrete store state. -/
theorem storeFileContent_idempotent_witness :
    storeFileContent (fun _ => "aabb") [("/src/a.txt", [104, 105])] "/backup" "/src/a.txt"
        = .ok ("aabb", [("/src/a.txt", [104, 105]),
            ("/backup/objects/aa/bb/aabb", [104, 105])], true) ∧
      storeFileContent (fun _ => "aabb")
        [("/src/a.txt", [104, 105]), ("/backup/objects/aa/bb/aabb", [104, 105])]
        "/backup" "/src/a.txt"
        = .ok ("aabb", [("/src/a.txt", [104, 105]),
            ("/backup/objects/aa/bb/aabb", [104, 105])], false) := by
  constructor
  · rfl
  · exact (storeFileContent_idempotent (fun _ => "aabb") [("/src/a.txt", [104, 105])] _
      "/backup" "/src/a.txt" "aabb" true rfl).1

/-! ## Ignore matcher (`backup.go` / `src/unnamed/part_001`) -/

/-- Embedding of `getEsc` inside `filepath.Match`: read one possibly
backslash-escaped character of a character class; `-` and `]` are not valid
range endpoints, and the class may not end right after an endpoint (at least
the closing `]` must follow). -/
def getEsc : List Char → Option (Char × List Char)
  | [] => none
  | '-' :: _ => none
  | ']' :: _ => none
  | '\\' :: [] => none
  | '\\' :: d :: rest => if rest.isEmpty then none else some (d, rest)
  | c :: rest => if rest.isEmpty then none else some (c, rest)

/-- Range-scanning loop of the `[` case of `matchChunk` in `filepath.Match`.
Each iteration consumes at least one pattern character, so the fuel passed by
`scanClass` (the pattern length plus one) never runs out; `none` means the
class is malformed (`ErrBadPattern`). -/
def scanRanges : Nat → Nat → List Char → Option (List (Char × Char) × List Char)
  | 0, _, _ => none
  | fuel + 1, nr, cs =>
    match cs with
    | ']' :: rest =>
      if 0 < nr then some ([], rest)
      else none
    | _ =>
      match getEsc cs with
      | none => none
      | some (lo, rest) =>
        match rest with
        | '-' :: rest' =>
          match getEsc rest' with
          | none => none
          | some (hi, rest'') =>
            match scanRanges fuel (nr + 1) rest'' with
            | none => none
            | some (rs, fin) => some ((lo, hi) :: rs, fin)
        | _ =>
          match scanRanges fuel (nr + 1) rest with
          | none => none
          | some (rs, fin) => some ((lo, lo) :: rs, fin)

/-- Character-class parser of `filepath.Match`: an optional leading `^`
negation followed by one or more ranges and the closing `]`. -/
def scanClass (ps : List Char) : Option (Bool × List (Char × Char) × List Char) :=
  match ps with
  | '^' :: t =>
    match scanRanges (t.length + 1) 0 t with
    | none => none
    | some (rs, rest) => some (true, rs, rest)
  | _ =>
    match scanRanges (ps.length + 1) 0 ps with
    | none => none
    | some (rs, fin) => some (false, rs, fin)

/-- Character-class membership test of `filepath.Match`. -/
def matchRanges (neg : Bool) (rs : List (Char × Char)) (c : Char) : Bool :=
  let inR := rs.any (fun lohi => decide (lohi.1 ≤ c) && decide (c ≤ lohi.2))
  if neg then !inR else inR

/-- Recursive core of `filepath.Match` (Unix rules): `*` matches any run of
non-separator characters, `?` one non-separator character, `[...]` a character
class, `\\` escapes, and any other character matches itself; a malformed class
makes the whole match fail, which is how the callers in `shouldIgnorePattern`
treat `ErrBadPattern`.  Every recursive call strictly decreases the sum of the
pattern length and the name length, so the fuel `goMatch` passes (that sum
plus one) never runs out. -/
def goMatchAux : Nat → List Char → List Char → Bool
  | 0, _, _ => false
  | fuel + 1, p, s =>
    match p with
    | [] => s.isEmpty
    | '*' :: ps =>
      goMatchAux fuel ps s ||
        (match s with
         | [] => false
         | c :: s' => decide (c ≠ '/') && goMatchAux fuel ('*' :: ps) s')
    | '?' :: ps =>
      match s with
      | [] => false
      | c :: s' => decide (c ≠ '/') && goMatchAux fuel ps s'
    | '[' :: ps =>
      match scanClass ps with
      | none => false
      | some (neg, rs, rest) =>
        match s with
        | [] => false
        | c :: s' => matchRanges neg rs c && goMatchAux fuel rest s'
    | '\\' :: ps =>
      match ps, s with
      | pc :: ps', c :: s' => pc == c && goMatchAux fuel ps' s'
      | _, _ => false
    | pc :: ps =>
      match s with
      | [] => false
      | c :: s' => pc == c && goMatchAux fuel ps s'

/-- Embedding of `filepath.Match pattern name` with the error result collapsed
to `false`, as every call site in `shouldIgnorePattern` discards the error. -/
def filepathMatch (pattern name : String) : Bool :=
  goMatchAux (pattern.data.length + name.data.length + 1) pattern.data name.data

/-- Embedding of `strings.HasPrefix s pre` (also used for `String` methods of
the same meaning), phrased on the character lists so that it reduces cheaply
on symbolic strings. -/
def goStartsWith (s pre : String) : Bool := pre.data.isPrefixOf s.data

/-- Embedding of `strings.HasSuffix s suf`, phrased on the character lists. -/
def goEndsWith (s suf : String) : Bool := suf.data.isSuffixOf s.data

/-- Embedding of `filepath.IsAbs` on Unix: the path begins with a slash. -/
def filepathIsAbs (p : String) : Bool := goStartsWith p "/"

/-- Embedding of `strings.TrimSuffix`: cut the suffix off when present.  The
suffixes used by the code (`.json`, `/`) are ASCII, where byte and character
counts coincide. -/
def goTrimSuffix (s suf : String) : String :=
  if goEndsWith s suf then ⟨s.data.take (s.data.length - suf.data.length)⟩ else s

/-- Embedding of `strings.Contains s sub`: some tail of `s` starts with
`sub`. -/
def goContains (s sub : String) : Bool :=
  s.data.tails.any (fun t => sub.data.isPrefixOf t)

/-- Embedding of `shouldIgnorePattern` (src/unnamed/part_001): the ordered
cascade of absolute-path equality, trailing-slash directory pattern, basename
glob, per-segment glob, full-path glob, slash-pattern glob variants, substring
containment, and wildcard-wrapped globs.  `filepath.ToSlash` is the identity
here because the model works with forward-slash paths throughout. -/
def shouldIgnorePattern (fullPath fileName pattern : String) : Bool :=
  let normalizedPath := fullPath
  let normalizedPattern := pattern
  if filepathIsAbs pattern && normalizedPath == normalizedPattern then true
  else if goEndsWith normalizedPattern "/" &&
      (let dirPattern := goTrimSuffix normalizedPattern "/"
       normalizedPath == dirPattern || goStartsWith normalizedPath (dirPattern ++ "/")) then
    true
  else if filepathMatch pattern fileName then true
  else if (normalizedPath.splitOn "/").any (fun part => filepathMatch pattern part) then true
  else if filepathMatch pattern normalizedPath then true
  else if normalizedPattern.data.any (fun c => c == '/') &&
      (filepathMatch normalizedPattern normalizedPath ||
       filepathMatch (normalizedPattern ++ "/*") normalizedPath ||
       filepathMatch ("*/" ++ normalizedPattern) normalizedPath ||
       filepathMatch ("*" ++ normalizedPattern ++ "*") normalizedPath) then true
  else if goContains normalizedPath pattern then true
  else if filepathMatch ("*" ++ pattern) normalizedPath then true
  else if filepathMatch (pattern ++ "*") normalizedPath then true
  else filepathMatch ("*" ++ pattern ++ "*") normalizedPath

/-- Embedding of `shouldIgnore` (src/unnamed/part_001): empty patterns are
skipped and the first matching pattern excludes the path.  The walker passes
the basename of the directory entry as `dName`. -/
def shouldIgnore (path dName : String) (ignorePatterns : List String) : Bool :=
  ignorePatterns.any (fun pattern =>
    if pattern = "" then false else shouldIgnorePattern path dName pattern)

/-! ## Snapshot catalog (`snapshot.go`, `LoadLatestSnapshot`) -/

/-- Decimal digit test on the code point, as the byte-wise digit checks of
`time.Parse` perform. -/
def isDigitC (c : Char) : Bool := decide (48 ≤ c.toNat) && decide (c.toNat ≤ 57)

/-- Numeric value of a digit string. -/
def digitsVal : List Char → Nat
  | [] => 0
  | c :: cs => (c.toNat - 48) * 10 ^ cs.length + digitsVal cs

/-- Gregorian leap-year rule used by the `time` package. -/
def isLeapYear (y : Nat) : Bool := (y % 4 == 0 && y % 100 != 0) || y % 400 == 0

/-- Day count of a month, as validated by `time.Parse`. -/
def daysInMonth (y m : Nat) : Nat :=
  if m = 2 then (if isLeapYear y then 29 else 28)
  else if m = 4 ∨ m = 6 ∨ m = 9 ∨ m = 11 then 30 else 31

/-- Embedding of `time.Parse("20060102150405", id)`: fourteen decimal digits
with the month, day (validated against the month length), hour, minute and
second in range.  The returned value is the fourteen-digit numeral itself: the
(year, month, day, hour, minute, second) tuple order — the order `Time.After`
compares — coincides with the numeric order of this numeral because every
later field occupies fixed lower-significance digit positions. -/
def parseTimestamp14 (s : String) : Option Nat :=
  let cs := s.data
  if cs.length = 14 ∧ cs.all isDigitC then
    let y := digitsVal (cs.take 4)
    let mo := digitsVal ((cs.drop 4).take 2)
    let d := digitsVal ((cs.drop 6).take 2)
    let hh := digitsVal ((cs.drop 8).take 2)
    let mi := digitsVal ((cs.drop 10).take 2)
    let ss := digitsVal ((cs.drop 12).take 2)
    if 1 ≤ mo ∧ mo ≤ 12 ∧ 1 ≤ d ∧ d ≤ daysInMonth y mo ∧ hh ≤ 23 ∧ mi ≤ 59 ∧ ss ≤ 59 then
      some (digitsVal cs)
    else none
  else none

/-- Numeral of the Go zero time `0001-01-01 00:00:00`, the only instant for
which `Time.IsZero` holds. -/
def zeroTimeVal : Nat := 10101000000

/-- Lexicographic comparison of strings by code point, the order by which the
descending name sort and the spec statement about lexicographic maxima
compare snapshot ids. -/
def lexLt : List Char → List Char → Bool
  | [], [] => false
  | [], _ :: _ => true
  | _ :: _, [] => false
  | a :: as, b :: bs =>
    if a.toNat < b.toNat then true
    else if b.toNat < a.toNat then false
    else lexLt as bs

/-- Insertion step of `sort.Slice(validEntries, ...)` with the descending
name comparator. -/
def sortInsDesc (x : String) : List String → List String
  | [] => [x]
  | y :: t => if lexLt y.data x.data then x :: y :: t else y :: sortInsDesc x t

/-- Descending sort by name of the `.json` directory entries. -/
def sortDesc (l : List String) : List String := l.foldr sortInsDesc []

/-- Body of the selection loop of `LoadLatestSnapshot` (snapshot.go lines
95-110): trim the `.json` extension, parse the id, record a warning for an
unparseable id, and keep the id whose parsed time is the latest; the
`latestTime.IsZero() || t.After(latestTime)` guard is the first disjunct
below (`none` plays the part of the initial zero `latestTime`). -/
def scanStep (acc : String × Option Nat × List String) (name : String) :
    String × Option Nat × List String :=
  let id := goTrimSuffix name ".json"
  match parseTimestamp14 id with
  | none => (acc.1, acc.2.1, acc.2.2 ++ [id])
  | some t =>
    match acc.2.1 with
    | none => (id, some t, acc.2.2)
    | some bt => if bt = zeroTimeVal ∨ bt < t then (id, some t, acc.2.2) else acc

/-- Selection phase of `LoadLatestSnapshot`: filter the names ending in
`.json`, sort them descending, and run the selection loop.  Returns the
chosen id (`""` when no valid id was seen), its parsed time, and the warned
ids. -/
def latestScan (entries : List String) : String × Option Nat × List String :=
  (sortDesc (entries.filter (fun n => goEndsWith n ".json"))).foldl scanStep ("", none, [])

/-- Embedding of `LoadLatestSnapshot` (snapshot.go): `none` when the
`snapshots/` directory is absent or no valid id exists, otherwise the result
of loading the selected id; a failing load (read or unmarshal) is an error.
The directory listing and the per-file loader are the I/O inputs of the
model. -/
def loadLatestSnapshot {σ : Type} (snapDirExists : Bool) (entries : List String)
    (load : String → Option σ) : Except String (Option σ) × List String :=
  if !snapDirExists then (.ok none, [])
  else
    let scanned := latestScan entries
    if scanned.1 = "" then (.ok none, scanned.2.2)
    else
      match load scanned.1 with
      | none => (.error "failed to read latest snapshot file", scanned.2.2)
      | some s => (.ok (some s), scanned.2.2)

theorem digitsVal_lt (cs : List Char) (h : cs.all isDigitC = true) :
    digitsVal cs < 10 ^ cs.length := by
  induction cs with
  | nil => simp [digitsVal]
  | cons c t ih =>
    simp only [List.all_cons, Bool.and_eq_true] at h
    have hd : c.toNat - 48 ≤ 9 := by
      have := h.1
      simp [isDigitC] at this
      omega
    have ht := ih h.2
    simp only [digitsVal, List.length_cons]
    calc (c.toNat - 48) * 10 ^ t.length + digitsVal t
        < (c.toNat - 48) * 10 ^ t.length + 10 ^ t.length := by omega
      _ = (c.toNat - 48 + 1) * 10 ^ t.length := by ring
      _ ≤ 10 * 10 ^ t.length := Nat.mul_le_mul_right _ (by omega)
      _ = 10 ^ (t.length + 1) := by ring

theorem lexLt_iff_digitsVal (as : List Char) : ∀ (bs : List Char),
    as.length = bs.length → as.all isDigitC = true → bs.all isDigitC = true →
    (lexLt as bs = true ↔ digitsVal as < digitsVal bs) := by
  induction as with
  | nil =>
    intro bs hlen _ _
    cases bs with
    | nil => simp [lexLt, digitsVal]
    | cons b bt => simp at hlen
  | cons a at' ih =>
    intro bs hlen ha hb
    cases bs with
    | nil => simp at hlen
    | cons b bt =>
      simp only [List.length_cons] at hlen
      have hlen' : at'.length = bt.length := by omega
      simp only [List.all_cons, Bool.and_eq_true] at ha hb
      have hxa := digitsVal_lt at' ha.2
      have hxb := digitsVal_lt bt hb.2
      by_cases h1 : a.toNat < b.toNat
      · simp only [lexLt, h1, if_true, true_iff, digitsVal]
        rw [hlen']
        calc (a.toNat - 48) * 10 ^ bt.length + digitsVal at'
            < (a.toNat - 48) * 10 ^ bt.length + 10 ^ bt.length := by
              rw [← hlen']; omega
          _ = (a.toNat - 48 + 1) * 10 ^ bt.length := by ring
          _ ≤ (b.toNat - 48) * 10 ^ bt.length := by
              apply Nat.mul_le_mul_right
              have := ha.1
              have := hb.1
              simp [isDigitC] at *
              omega
          _ ≤ (b.toNat - 48) * 10 ^ bt.length + digitsVal bt := by omega
      · by_cases h2 : b.toNat < a.toNat
        · have hgt : (b.toNat - 48) * 10 ^ bt.length + digitsVal bt
              < (a.toNat - 48) * 10 ^ bt.length + digitsVal at' := by
            calc (b.toNat - 48) * 10 ^ bt.length + digitsVal bt
                < (b.toNat - 48) * 10 ^ bt.length + 10 ^ bt.length := by omega
              _ = (b.toNat - 48 + 1) * 10 ^ bt.length := by ring
              _ ≤ (a.toNat - 48) * 10 ^ bt.length := by
                  apply Nat.mul_le_mul_right
                  have := ha.1
                  have := hb.1
                  simp [isDigitC] at *
                  omega
              _ ≤ (a.toNat - 48) * 10 ^ bt.length + digitsVal at' := by omega
          simp only [lexLt, h1, if_false, h2, if_true, digitsVal, hlen']
          exact iff_of_false (by simp) (Nat.lt_asymm hgt)
        · have heq : a.toNat = b.toNat := by omega
          simp only [lexLt, h1, if_false, h2, digitsVal, heq, hlen', lt_self_iff_false,
            if_false]
          rw [ih bt hlen' ha.2 hb.2]
          generalize (b.toNat - 48) * 10 ^ bt.length = K
          omega

theorem mem_sortInsDesc (x y : String) (l : List String) :
    y ∈ sortInsDesc x l ↔ y = x ∨ y ∈ l := by
  induction l with
  | nil => simp [sortInsDesc]
  | cons a t ih =>
    by_cases hc : lexLt a.data x.data = true
    · simp [sortInsDesc, hc]
    · simp only [sortInsDesc, hc, if_false, Bool.false_eq_true, List.mem_cons, ih]
      tauto

theorem mem_sortDesc (x : String) (l : List String) : x ∈ sortDesc l ↔ x ∈ l := by
  induction l with
  | nil => simp [sortDesc]
  | cons a t ih =>
    simp only [sortDesc, List.foldr_cons] at *
    rw [mem_sortInsDesc, ih, List.mem_cons]

theorem parseTimestamp14_inv {s : String} {t : Nat} (h : parseTimestamp14 s = some t) :
    s.data.length = 14 ∧ s.data.all isDigitC = true ∧ digitsVal s.data = t := by
  unfold parseTimestamp14 at h
  dsimp only at h
  split_ifs at h with h1 h2
  · exact ⟨h1.1, h1.2, Option.some_inj.mp h⟩

theorem scanStep_none (a1 : String) (ab : Option Nat) (aw : List String) (name : String)
    (hp : parseTimestamp14 (goTrimSuffix name ".json") = none) :
    scanStep (a1, ab, aw) name = (a1, ab, aw ++ [goTrimSuffix name ".json"]) := by
  unfold scanStep
  dsimp only
  rw [hp]

theorem scanStep_some_first (a1 : String) (aw : List String) (name : String) (t : Nat)
    (hp : parseTimestamp14 (goTrimSuffix name ".json") = some t) :
    scanStep (a1, none, aw) name = (goTrimSuffix name ".json", some t, aw) := by
  unfold scanStep
  dsimp only
  rw [hp]

theorem scanStep_some_keep (a1 : String) (aw : List String) (name : String) (t bt : Nat)
    (hp : parseTimestamp14 (goTrimSuffix name ".json") = some t)
    (hc : ¬ (bt = zeroTimeVal ∨ bt < t)) :
    scanStep (a1, some bt, aw) name = (a1, some bt, aw) := by
  unfold scanStep
  dsimp only
  rw [hp]
  simp [hc]

theorem scanStep_some_take (a1 : String) (aw : List String) (name : String) (t bt : Nat)
    (hp : parseTimestamp14 (goTrimSuffix name ".json") = some t)
    (hc : bt = zeroTimeVal ∨ bt < t) :
    scanStep (a1, some bt, aw) name = (goTrimSuffix name ".json", some t, aw) := by
  unfold scanStep
  dsimp only
  rw [hp]
  simp [hc]

/-- Invariant of the selection loop: whenever a latest time is recorded, the
recorded id parses to exactly that time and the time is not the zero time. -/
def scanInv (acc : String × Option Nat × List String) : Prop :=
  ∀ bt, acc.2.1 = some bt → parseTimestamp14 acc.1 = some bt ∧ bt ≠ zeroTimeVal

theorem scan_fold (names : List String) : ∀ acc,
    scanInv acc →
    (∀ nm ∈ names, parseTimestamp14 (goTrimSuffix nm ".json") ≠ some zeroTimeVal) →
    scanInv (names.foldl scanStep acc) ∧
    (∀ nm ∈ names, ∀ t, parseTimestamp14 (goTrimSuffix nm ".json") = some t →
      ∃ tw, (names.foldl scanStep acc).2.1 = some tw ∧ t ≤ tw) ∧
    (∀ bt, acc.2.1 = some bt →
      ∃ tw, (names.foldl scanStep acc).2.1 = some tw ∧ bt ≤ tw) ∧
    (∀ nm ∈ names, parseTimestamp14 (goTrimSuffix nm ".json") = none →
      goTrimSuffix nm ".json" ∈ (names.foldl scanStep acc).2.2) ∧
    (∀ x ∈ acc.2.2, x ∈ (names.foldl scanStep acc).2.2) := by
  induction names with
  | nil =>
    intro acc hInv _
    refine ⟨hInv, by simp, ?_, by simp, by simp⟩
    intro bt hbt
    exact ⟨bt, hbt, le_refl _⟩
  | cons nm rest ih =>
    intro acc hInv hz
    obtain ⟨a1, ab, aw⟩ := acc
    have hznm := hz nm (List.mem_cons_self _ _)
    have hzrest : ∀ x ∈ rest, parseTimestamp14 (goTrimSuffix x ".json") ≠ some zeroTimeVal :=
      fun x hx => hz x (List.mem_cons_of_mem _ hx)
    simp only [List.foldl_cons]
    have key : scanInv (scanStep (a1, ab, aw) nm) ∧
        (∀ bt, ab = some bt → ∃ bt', (scanStep (a1, ab, aw) nm).2.1 = some bt' ∧ bt ≤ bt') ∧
        (∀ t, parseTimestamp14 (goTrimSuffix nm ".json") = some t →
          ∃ bt', (scanStep (a1, ab, aw) nm).2.1 = some bt' ∧ t ≤ bt') ∧
        (∀ x ∈ aw, x ∈ (scanStep (a1, ab, aw) nm).2.2) ∧
        (parseTimestamp14 (goTrimSuffix nm ".json") = none →
          goTrimSuffix nm ".json" ∈ (scanStep (a1, ab, aw) nm).2.2) := by
      cases hp : parseTimestamp14 (goTrimSuffix nm ".json") with
      | none =>
        rw [scanStep_none a1 ab aw nm hp]
        refine ⟨?_, ?_, ?_, ?_, ?_⟩
        · exact fun bt hbt => hInv bt hbt
        · exact fun bt hbt => ⟨bt, hbt, le_refl _⟩
        · intro t ht; simp at ht
        · intro x hx; simp [hx]
        · intro _; simp
      | some t =>
        cases ab with
        | none =>
          rw [scanStep_some_first a1 aw nm t hp]
          refine ⟨?_, ?_, ?_, ?_, ?_⟩
          · intro bt hbt
            simp only [Option.some_inj] at hbt
            subst hbt
            exact ⟨hp, fun hc => hznm (hp.trans (congrArg some hc))⟩
          · intro bt hbt; cases hbt
          · intro t' ht'
            simp only [hp, Option.some_inj] at ht'
            subst ht'
            exact ⟨t, rfl, le_refl _⟩
          · intro x hx; exact hx
          · intro hc; simp at hc
        | some bt =>
          have hb := hInv bt rfl
          by_cases hlt : bt = zeroTimeVal ∨ bt < t
          · rw [scanStep_some_take a1 aw nm t bt hp hlt]
            refine ⟨?_, ?_, ?_, ?_, ?_⟩
            · intro bt' hbt'
              simp only [Option.some_inj] at hbt'
              subst hbt'
              exact ⟨hp, fun hc => hznm (hp.trans (congrArg some hc))⟩
            · intro bt' hbt'
              simp only [Option.some_inj] at hbt'
              subst hbt'
              rcases hlt with hd | hd
              · exact absurd hd hb.2
              · exact ⟨t, rfl, le_of_lt hd⟩
            · intro t' ht'
              simp only [hp, Option.some_inj] at ht'
              subst ht'
              exact ⟨t, rfl, le_refl _⟩
            · intro x hx; exact hx
            · intro hc; simp at hc
          · rw [scanStep_some_keep a1 aw nm t bt hp hlt]
            refine ⟨?_, ?_, ?_, ?_, ?_⟩
            · exact hInv
            · intro bt' hbt'
              simp only [Option.some_inj] at hbt'
              subst hbt'
              exact ⟨bt, rfl, le_refl _⟩
            · intro t' ht'
              simp only [hp, Option.some_inj] at ht'
              subst ht'
              have hle : t ≤ bt := by
                rcases Nat.lt_or_ge bt t with hx | hx
                · exact absurd (Or.inr hx) hlt
                · exact hx
              exact ⟨bt, rfl, hle⟩
            · intro x hx; exact hx
            · intro hc; simp at hc
    obtain ⟨kInv, kup, khead, kwpres, khwarn⟩ := key
    obtain ⟨rInv, rmax, rup, rwarn, rwpres⟩ := ih (scanStep (a1, ab, aw) nm) kInv hzrest
    refine ⟨rInv, ?_, ?_, ?_, ?_⟩
    · intro x hx t ht
      rcases List.mem_cons.mp hx with hx | hx
      · subst hx
        obtain ⟨bt', hbt', hle⟩ := khead t ht
        obtain ⟨tw, htw, hle2⟩ := rup bt' hbt'
        exact ⟨tw, htw, le_trans hle hle2⟩
      · exact rmax x hx t ht
    · intro bt hbt
      obtain ⟨bt', hbt', hle⟩ := kup bt hbt
      obtain ⟨tw, htw, hle2⟩ := rup bt' hbt'
      exact ⟨tw, htw, le_trans hle hle2⟩
    · intro x hx ht
      rcases List.mem_cons.mp hx with hx | hx
      · subst hx
        exact rwpres _ (khwarn ht)
      · exact rwarn x hx ht
    · intro x hx
      exact rwpres _ (kwpres x hx)

/-- C5: latest-snapshot selection.  With the `snapshots/` directory absent the
result is `none` (and no warning).  Otherwise only entries ending in `.json`
take part; every entry whose trimmed basename parses as `YYYYMMDDhhmmss` is
dominated by the selected id, which itself parses to the maximal timestamp and
is also the lexicographic maximum among the valid ids; unparseable basenames
are skipped with a warning; and a successfully returned snapshot is exactly
the one loaded from the selected id.  The hypothesis excludes ids parsing to
the Go zero time `0001-01-01 00:00:00`, for which `latestTime.IsZero()` makes
the loop accept any successor. -/
theorem loadLatestSnapshot_spec {σ : Type} (entries : List String) (load : String → Option σ)
    (hz : ∀ e ∈ entries, parseTimestamp14 (goTrimSuffix e ".json") ≠ some zeroTimeVal) :
    (loadLatestSnapshot false entries load = (.ok none, [])) ∧
    (∀ e ∈ entries, goEndsWith e ".json" = true →
      ∀ te, parseTimestamp14 (goTrimSuffix e ".json") = some te →
        ∃ tw, (latestScan entries).2.1 = some tw ∧ te ≤ tw ∧
          parseTimestamp14 (latestScan entries).1 = some tw ∧
          lexLt (latestScan entries).1.data (goTrimSuffix e ".json").data = false) ∧
    (∀ e ∈ entries, goEndsWith e ".json" = true →
      parseTimestamp14 (goTrimSuffix e ".json") = none →
        goTrimSuffix e ".json" ∈ (latestScan entries).2.2) ∧
    (∀ s, (loadLatestSnapshot true entries load).1 = Except.ok (some s) →
      load (latestScan entries).1 = some s) := by
  have hmem : ∀ e ∈ entries, goEndsWith e ".json" = true →
      e ∈ sortDesc (entries.filter (fun n => goEndsWith n ".json")) := by
    intro e he hej
    rw [mem_sortDesc]
    exact List.mem_filter.mpr ⟨he, hej⟩
  have hzn : ∀ nm ∈ sortDesc (entries.filter (fun n => goEndsWith n ".json")),
      parseTimestamp14 (goTrimSuffix nm ".json") ≠ some zeroTimeVal := by
    intro nm hnm
    exact hz nm (List.mem_filter.mp ((mem_sortDesc nm _).mp hnm)).1
  obtain ⟨fInv, fmax, _, fwarn, _⟩ :=
    scan_fold (sortDesc (entries.filter (fun n => goEndsWith n ".json")))
      ("", none, []) (by intro bt hbt; cases hbt) hzn
  have hscan : latestScan entries =
      (sortDesc (entries.filter (fun n => goEndsWith n ".json"))).foldl scanStep
        ("", none, []) := rfl
  rw [← hscan] at fInv fmax fwarn
  refine ⟨rfl, ?_, ?_, ?_⟩
  · intro e he hej te hte
    obtain ⟨tw, htw, hle⟩ := fmax e (hmem e he hej) te hte
    have hparse := fInv tw htw
    refine ⟨tw, htw, hle, hparse.1, ?_⟩
    have hbi := parseTimestamp14_inv hparse.1
    have hei := parseTimestamp14_inv hte
    cases hlex : lexLt (latestScan entries).1.data (goTrimSuffix e ".json").data with
    | false => rfl
    | true =>
      exfalso
      have hiff := lexLt_iff_digitsVal (latestScan entries).1.data
        (goTrimSuffix e ".json").data (by rw [hbi.1, hei.1]) hbi.2.1 hei.2.1
      have := hiff.mp hlex
      rw [hbi.2.2, hei.2.2] at this
      omega
  · intro e he hej hnone
    exact fwarn e (hmem e he hej) hnone
  · intro s hs
    by_cases hb : (latestScan entries).1 = ""
    · exfalso
      simp only [loadLatestSnapshot, Bool.not_true, Bool.false_eq_true, if_false, hb,
        if_true] at hs
      cases hs
    · simp only [loadLatestSnapshot, Bool.not_true, Bool.false_eq_true, if_false, hb,
        ite_false] at hs
      cases hl : load (latestScan entries).1 with
      | none => rw [hl] at hs; cases hs
      | some s' =>
        rw [hl] at hs
        simp only [Except.ok.injEq, Option.some_inj] at hs
        rw [hs]

/-- Witness for `loadLatestSnapshot_spec` at a concrete directory listing with
two valid ids and one invalid id. -/
theorem loadLatestSnapshot_spec_witness :
    ∃ tw,
      (latestScan ["20240102030405.json", "20231231235959.json", "oops.json"]).2.1
          = some tw ∧
        20231231235959 ≤ tw ∧
        parseTimestamp14
            (latestScan ["20240102030405.json", "20231231235959.json", "oops.json"]).1
          = some tw ∧
        lexLt (latestScan ["20240102030405.json", "20231231235959.json", "oops.json"]).1.data
            (goTrimSuffix "20231231235959.json" ".json").data = false :=
  (loadLatestSnapshot_spec ["20240102030405.json", "20231231235959.json", "oops.json"]
      (fun _ => (none : Option Nat)) (by decide)).2.1
    "20231231235959.json" (by simp) (by decide) 20231231235959 (by decide)

/-! ## Backup engine (`RunBackupWithBatchConfig`, `src/unnamed/part_001`) -/

/-- Metadata of a regular file, as read from the directory entry
(`fs.FileInfo`): size, mode bits, and the modification instant. -/
structure FileMeta where
  size : Nat
  mode : Nat
  modTime : Nat
deriving DecidableEq, Repr

/-- A source-tree node: a regular file with metadata and content, or a
directory with its children listed in the walk order of
`filepath.WalkDir`. -/
inductive FNode where
  | file (name : String) (meta : FileMeta) (content : Content)
  | dir (name : String) (children : List FNode)

/-- Basename of the node, the `d.Name()` of its directory entry. -/
def FNode.name : FNode → String
  | .file n _ _ => n
  | .dir n _ => n

/-- Whether the node is a directory (`d.IsDir()`). -/
def FNode.isDir : FNode → Bool
  | .file _ _ _ => false
  | .dir _ _ => true

/-- Embedding of `FileEntry` (snapshot.go): relative path, content hash,
size, mode and modification time. -/
structure FileEntry where
  path : String
  hash : String
  size : Nat
  mode : Nat
  modTime : Nat
deriving DecidableEq, Repr

/-- Static inputs of one engine run. -/
structure EngineParams where
  casBaseDir : String
  ignorePatterns : List String
  batchSize : Nat
deriving Repr

/-- Observable state of the engine model: the cancellation-poll countdown
(`none` = the context is never cancelled, `some n` = the next `n` polls pass
and the following one observes cancellation), the walker counters, the object
store contents, the source paths opened for content hashing, the streaming
writer, the published snapshot manifests keyed by id, and the progress
counters.  `processedTrace` records, in order, the absolute path and entry of
every `AddFile` call. -/
structure EngineSt where
  cancelBudget : Option Nat
  filesWalked : Nat
  fileCount : Nat
  batchCount : Nat
  store : FS
  readPaths : List String
  writerFiles : List (String × FileEntry)
  writerClosed : Bool
  tmpIds : List String
  snapshots : List (String × List (String × FileEntry))
  bytesTransferred : Nat
  filesProcessed : Int
  processedTrace : List (String × FileEntry)
deriving DecidableEq, Repr

/-- One `select { case <-ctx.Done(): ... default: }` poll: with budget
`some 0` the context is observed cancelled, otherwise the poll passes,
consuming one unit of a finite budget. -/
def pollCancel (st : EngineSt) : Bool × EngineSt :=
  match st.cancelBudget with
  | none => (false, st)
  | some 0 => (true, st)
  | some (n + 1) => (false, { st with cancelBudget := some n })

/-- Polls performed by one `copyWithContext` call on a content that fits one
32 KiB buffer (the model treats every content as a single chunk): a poll
before the read; for non-empty content, a poll before the write and a poll
before the final read that returns `io.EOF`. -/
def copyCtx (st : EngineSt) (c : Content) : Bool × EngineSt :=
  let r := pollCancel st
  if r.1 then (true, r.2)
  else if c.isEmpty then (false, r.2)
  else
    let r2 := pollCancel r.2
    if r2.1 then (true, r2.2)
    else pollCancel r2.2

/-- Embedding of `StoreFileContentWithContext` as invoked by the engine: open
the source file (recorded in `readPaths`), stream it through SHA-256 with the
cancellable copier, poll before creating the parent directories, return the
hash with no write when the object already exists, otherwise poll and copy
the content to the object path.  A `none` hash is the `context.Canceled`
error. -/
def storeFileContentCtx (hashFn : Content → String) (P : EngineParams)
    (st : EngineSt) (path : String) (c : Content) : Option String × EngineSt :=
  let st := { st with readPaths := st.readPaths ++ [path] }
  let r := copyCtx st c
  if r.1 then (none, r.2)
  else
    let fileHash := hashFn c
    let r2 := pollCancel r.2
    if r2.1 then (none, r2.2)
    else
      let objectPath := getObjectPath P.casBaseDir fileHash
      match lookupA r2.2.store objectPath with
      | some _ => (some fileHash, r2.2)
      | none =>
        let r3 := pollCancel r2.2
        if r3.1 then (none, r3.2)
        else
          let r4 := copyCtx r3.2 c
          if r4.1 then (none, r4.2)
          else (some fileHash, { r4.2 with store := insertA r4.2.store objectPath c })

/-- Embedding of `filepath.Rel(base, target)` for the shapes the walker
produces: the target is the walk root itself (`.`) or lies strictly below
it. -/
def goRel (base target : String) : String :=
  if target = base then "."
  else if goStartsWith target (base ++ "/") then
    ⟨target.data.drop (base.data.length + 1)⟩
  else target

/-- Embedding of `NewStreamingSnapshotWriter`: create
`snapshots/<id>.json.tmp` and the in-memory header with an empty files
map. -/
def createWriter (st : EngineSt) (id : String) : EngineSt :=
  { st with tmpIds := st.tmpIds ++ [id], writerFiles := [], writerClosed := false }

/-- Embedding of `StreamingSnapshotWriter.Close` (snapshot.go lines 256-310):
a second close is a no-op; otherwise the canonical serialization is rewritten
into the temporary file, which is then renamed to `snapshots/<id>.json`,
publishing the manifest. -/
def closeWriter (st : EngineSt) (id : String) : EngineSt :=
  if st.writerClosed then st
  else
    { st with writerClosed := true,
              tmpIds := st.tmpIds.filter (fun x => x ≠ id),
              snapshots := insertA st.snapshots id st.writerFiles }

/-- Change detection of the engine (src/unnamed/part_001 lines 352-370): the
carried-forward hash when the previous snapshot holds an entry of equal size
and modification time for the same relative path; `none` when the file counts
as changed (no previous snapshot, a new file, or a size or time mismatch). -/
def carryForwardHash (prev : Option (List (String × FileEntry))) (relPath : String)
    (meta : FileMeta) : Option String :=
  match prev with
  | none => none
  | some files =>
    match lookupA files relPath with
    | none => none
    | some pe =>
      if pe.size = meta.size ∧ pe.modTime = meta.modTime then some pe.hash else none

/-- Outcome of one `filepath.WalkDir` callback invocation: keep walking,
prune the directory (`filepath.SkipDir`), or propagate `ctx.Err()`. -/
inductive CbOut where
  | continueWalk
  | skipDir
  | cancelled
deriving DecidableEq, Repr

/-- Shared tail of the per-file processing (src/unnamed/part_001 lines
419-472): `AddFile` into the writer, the batch flush with its two
cancellation checks when the batch size is reached (time-based flushing is
modelled as never due), and the `bytesTransferred` accumulation for changed
files. -/
def afterAddFile (P : EngineParams) (st : EngineSt) (changed : Bool) (size : Nat) :
    CbOut × EngineSt :=
  let st := { st with batchCount := st.batchCount + 1 }
  if P.batchSize ≤ st.batchCount then
    let r := pollCancel st
    if r.1 then (.cancelled, r.2)
    else
      let st := { r.2 with batchCount := 0 }
      let r2 := pollCancel st
      if r2.1 then (.cancelled, r2.2)
      else
        let st := if changed then
            { r2.2 with bytesTransferred := r2.2.bytesTransferred + size }
          else r2.2
        (.continueWalk, st)
  else
    let st := if changed then
        { st with bytesTransferred := st.bytesTransferred + size }
      else st
    (.continueWalk, st)

/-- Embedding of the `filepath.WalkDir` callback body of
`RunBackupWithBatchConfig` (src/unnamed/part_001 lines 233-475) at entry
`path`/`node` below the walk root `absSource`, against the previous snapshot
files `prev`.  Memory statistics, `runtime.GC`, progress events and debug
logging have no observable effect and the error parameter is `nil` because
the modelled filesystem has no read errors. -/
def walkCallback (hashFn : Content → String) (P : EngineParams)
    (prev : Option (List (String × FileEntry))) (absSource : String)
    (st : EngineSt) (path : String) (node : FNode) : CbOut × EngineSt :=
  let r := pollCancel st
  if r.1 then (.cancelled, r.2)
  else
    let st := { r.2 with filesWalked := r.2.filesWalked + 1 }
    let r2 := if st.filesWalked % 10 = 0 then pollCancel st else (false, st)
    if r2.1 then (.cancelled, r2.2)
    else
      let st := r2.2
      if shouldIgnore path node.name P.ignorePatterns then
        if node.isDir then (.skipDir, st) else (.continueWalk, st)
      else if goStartsWith path P.casBaseDir then
        if node.isDir then (.skipDir, st) else (.continueWalk, st)
      else
        match node with
        | .dir _ _ => (.continueWalk, st)
        | .file _ meta content =>
          let relPath := goRel absSource path
          let st := { st with fileCount := st.fileCount + 1,
                              filesProcessed := st.filesProcessed + 1 }
          let r3 := pollCancel st
          if r3.1 then (.cancelled, r3.2)
          else
            let st := r3.2
            match carryForwardHash prev relPath meta with
            | some hsh =>
              let st := { st with filesProcessed := st.filesProcessed - 1 }
              let e : FileEntry := { path := relPath, hash := hsh, size := meta.size,
                                     mode := meta.mode, modTime := meta.modTime }
              let st := { st with writerFiles := insertA st.writerFiles relPath e,
                                  processedTrace := st.processedTrace ++ [(path, e)] }
              afterAddFile P st false meta.size
            | none =>
              let r4 := pollCancel st
              if r4.1 then (.cancelled, r4.2)
              else
                match storeFileContentCtx hashFn P r4.2 path content with
                | (none, st) => (.cancelled, st)
                | (some hsh, st) =>
                  let r5 := pollCancel st
                  if r5.1 then (.cancelled, r5.2)
                  else
                    let st := r5.2
                    let e : FileEntry := { path := relPath, hash := hsh,
                                           size := meta.size, mode := meta.mode,
                                           modTime := meta.modTime }
                    let st := { st with writerFiles := insertA st.writerFiles relPath e,
                                        processedTrace := st.processedTrace ++ [(path, e)] }
                    afterAddFile P st true meta.size

mutual

/-- Embedding of `filepath.WalkDir` from one node: run the callback; a
`SkipDir` on a directory prunes the subtree, cancellation aborts the whole
walk, and otherwise the children of a directory are visited in listed
order. -/
def walkNode (hashFn : Content → String) (P : EngineParams)
    (prev : Option (List (String × FileEntry))) (absSource : String)
    (st : EngineSt) (path : String) (node : FNode) : Bool × EngineSt :=
  match walkCallback hashFn P prev absSource st path node with
  | (.cancelled, st) => (true, st)
  | (.skipDir, st) => (false, st)
  | (.continueWalk, st) =>
    match node with
    | .file _ _ _ => (false, st)
    | .dir _ children => walkChildren hashFn P prev absSource st path children

/-- Walk of the children of a directory at `dirPath`, aborting on
cancellation. -/
def walkChildren (hashFn : Content → String) (P : EngineParams)
    (prev : Option (List (String × FileEntry))) (absSource : String)
    (st : EngineSt) (dirPath : String) (children : List FNode) : Bool × EngineSt :=
  match children with
  | [] => (false, st)
  | c :: rest =>
    match walkNode hashFn P prev absSource st (dirPath ++ "/" ++ c.name) c with
    | (true, st) => (true, st)
    | (false, st) => walkChildren hashFn P prev absSource st dirPath rest

end

/-- Final result of an engine run in the model; destination I/O failures do
not arise because the modelled destination accepts every write. -/
inductive RunResult where
  | completed
  | cancelled
deriving DecidableEq, Repr

/-- Embedding of the engine snapshot-id generation (src/unnamed/part_001 line
186): `fmt.Sprintf("%d", time.Now().Unix())`, the decimal rendering of the
Unix-seconds clock. -/
def engineSnapshotID (nowUnix : Nat) : String := toString nowUnix

/-- Per-source loop of `RunBackupWithBatchConfig` (lines 206-488): a
cancellation check before each source, a fresh per-source `filesWalked`
counter, and the walk itself; `filepath.Abs` is the identity because the
modelled source paths are absolute. -/
def runSources (hashFn : Content → String) (P : EngineParams)
    (prev : Option (List (String × FileEntry))) (sources : List (String × FNode))
    (st : EngineSt) : Bool × EngineSt :=
  match sources with
  | [] => (false, st)
  | (srcPath, tree) :: rest =>
    let r := pollCancel st
    if r.1 then (true, r.2)
    else
      let st := { r.2 with filesWalked := 0 }
      match walkNode hashFn P prev srcPath st srcPath tree with
      | (true, st) => (true, st)
      | (false, st) => runSources hashFn P prev rest st

/-- Embedding of `RunBackupWithBatchConfig` (src/unnamed/part_001): the early
cancellation check before any writer exists, the creation of the streaming
writer whose `Close` is deferred and therefore runs on every later return,
the per-source walks, the finalization checks, and the explicit `Close` on
success.  `prev` stands for the result of `LoadLatestSnapshot` (a failed load
degrades to no previous snapshot in the code), `sources` pairs each absolute
source path with its tree, and `nowUnix` names the snapshot. -/
def runBackupModel (hashFn : Content → String) (P : EngineParams)
    (prev : Option (List (String × FileEntry))) (sources : List (String × FNode))
    (nowUnix : Nat) (cancelBudget : Option Nat) : RunResult × EngineSt :=
  let st : EngineSt :=
    { cancelBudget := cancelBudget, filesWalked := 0, fileCount := 0,
      batchCount := 0, store := [], readPaths := [], writerFiles := [],
      writerClosed := false, tmpIds := [], snapshots := [], bytesTransferred := 0,
      filesProcessed := 0, processedTrace := [] }
  let r := pollCancel st
  if r.1 then (.cancelled, r.2)
  else
    let id := engineSnapshotID nowUnix
    let st := createWriter r.2 id
    match runSources hashFn P prev sources st with
    | (true, st) => (.cancelled, closeWriter st id)
    | (false, st) =>
      let r2 := pollCancel st
      if r2.1 then (.cancelled, closeWriter r2.2 id)
      else
        let r3 := if 0 < r2.2.batchCount then pollCancel r2.2 else (false, r2.2)
        if r3.1 then (.cancelled, closeWriter r3.2 id)
        else
          let r4 := pollCancel r3.2
          if r4.1 then (.cancelled, closeWriter r4.2 id)
          else (.completed, closeWriter r4.2 id)

theorem pollCancel_none {st : EngineSt} (h : st.cancelBudget = none) :
    pollCancel st = (false, st) := by
  unfold pollCancel
  rw [h]

theorem pollCancel_cases (st : EngineSt) :
    pollCancel st = (true, st) ∨
      ∃ b, pollCancel st = (false, { st with cancelBudget := b }) := by
  cases h : st.cancelBudget with
  | none => exact Or.inr ⟨st.cancelBudget, pollCancel_none h⟩
  | some n =>
    cases n with
    | zero => exact Or.inl (by unfold pollCancel; rw [h])
    | succ m => exact Or.inr ⟨some m, by unfold pollCancel; rw [h]⟩

theorem copyCtx_none {st : EngineSt} (h : st.cancelBudget = none) (c : Content) :
    copyCtx st c = (false, st) := by
  unfold copyCtx
  rw [pollCancel_none h]
  by_cases hc : c.isEmpty <;> simp [hc, pollCancel_none h]

theorem storeFileContentCtx_none_hit {st : EngineSt} (hashFn : Content → String)
    (P : EngineParams) (path : String) (c : Content) (c' : Content)
    (h : st.cancelBudget = none)
    (hlook : lookupA st.store (getObjectPath P.casBaseDir (hashFn c)) = some c') :
    storeFileContentCtx hashFn P st path c =
      (some (hashFn c), { st with readPaths := st.readPaths ++ [path] }) := by
  simp [storeFileContentCtx, copyCtx, pollCancel, h, hlook]

theorem storeFileContentCtx_none_miss {st : EngineSt} (hashFn : Content → String)
    (P : EngineParams) (path : String) (c : Content)
    (h : st.cancelBudget = none)
    (hlook : lookupA st.store (getObjectPath P.casBaseDir (hashFn c)) = none) :
    storeFileContentCtx hashFn P st path c =
      (some (hashFn c),
        { st with readPaths := st.readPaths ++ [path],
                  store := insertA st.store
                    (getObjectPath P.casBaseDir (hashFn c)) c }) := by
  simp [storeFileContentCtx, copyCtx, pollCancel, h, hlook]

theorem afterAddFile_none_false {st : EngineSt} (P : EngineParams) (size : Nat)
    (h : st.cancelBudget = none) :
    ∃ bc, afterAddFile P st false size = (.continueWalk, { st with batchCount := bc }) := by
  by_cases hb : P.batchSize ≤ st.batchCount + 1
  · exact ⟨0, by simp [afterAddFile, pollCancel, h, hb]⟩
  · exact ⟨st.batchCount + 1, by simp [afterAddFile, hb]⟩

theorem afterAddFile_none_true {st : EngineSt} (P : EngineParams) (size : Nat)
    (h : st.cancelBudget = none) :
    ∃ bc, afterAddFile P st true size =
      (.continueWalk,
        { st with batchCount := bc, bytesTransferred := st.bytesTransferred + size }) := by
  by_cases hb : P.batchSize ≤ st.batchCount + 1
  · exact ⟨0, by simp [afterAddFile, pollCancel, h, hb]⟩
  · exact ⟨st.batchCount + 1, by simp [afterAddFile, hb]⟩

theorem walkCallback_file_fast (hashFn : Content → String) (P : EngineParams)
    (prev : Option (List (String × FileEntry))) (absSource : String) (st : EngineSt)
    (path nm : String) (meta : FileMeta) (content : Content) (hsh : String)
    (hbud : st.cancelBudget = none)
    (hig : shouldIgnore path nm P.ignorePatterns = false)
    (hdest : goStartsWith path P.casBaseDir = false)
    (hcf : carryForwardHash prev (goRel absSource path) meta = some hsh) :
    ∃ bc, walkCallback hashFn P prev absSource st path (.file nm meta content) =
      (.continueWalk,
        { st with filesWalked := st.filesWalked + 1, fileCount := st.fileCount + 1,
                  batchCount := bc,
                  writerFiles := insertA st.writerFiles (goRel absSource path)
                    ⟨goRel absSource path, hsh, meta.size, meta.mode, meta.modTime⟩,
                  processedTrace := st.processedTrace ++
                    [(path, ⟨goRel absSource path, hsh, meta.size, meta.mode,
                      meta.modTime⟩)] }) := by
  by_cases hb : P.batchSize ≤ st.batchCount + 1
  · exact ⟨0, by
      by_cases hmod : (st.filesWalked + 1) % 10 = 0 <;>
        simp [walkCallback, afterAddFile, pollCancel, FNode.name, FNode.isDir,
          hbud, hig, hdest, hcf, hmod, hb]⟩
  · exact ⟨st.batchCount + 1, by
      by_cases hmod : (st.filesWalked + 1) % 10 = 0 <;>
        simp [walkCallback, afterAddFile, pollCancel, FNode.name, FNode.isDir,
          hbud, hig, hdest, hcf, hmod, hb]⟩

theorem walkCallback_file_changed_miss (hashFn : Content → String) (P : EngineParams)
    (prev : Option (List (String × FileEntry))) (absSource : String) (st : EngineSt)
    (path nm : String) (meta : FileMeta) (content : Content)
    (hbud : st.cancelBudget = none)
    (hig : shouldIgnore path nm P.ignorePatterns = false)
    (hdest : goStartsWith path P.casBaseDir = false)
    (hcf : carryForwardHash prev (goRel absSource path) meta = none)
    (hlook : lookupA st.store (getObjectPath P.casBaseDir (hashFn content)) = none) :
    ∃ bc, walkCallback hashFn P prev absSource st path (.file nm meta content) =
      (.continueWalk,
        { st with filesWalked := st.filesWalked + 1, fileCount := st.fileCount + 1,
                  filesProcessed := st.filesProcessed + 1,
                  batchCount := bc,
                  readPaths := st.readPaths ++ [path],
                  store := insertA st.store
                    (getObjectPath P.casBaseDir (hashFn content)) content,
                  bytesTransferred := st.bytesTransferred + meta.size,
                  writerFiles := insertA st.writerFiles (goRel absSource path)
                    ⟨goRel absSource path, hashFn content, meta.size, meta.mode,
                      meta.modTime⟩,
                  processedTrace := st.processedTrace ++
                    [(path, ⟨goRel absSource path, hashFn content, meta.size, meta.mode,
                      meta.modTime⟩)] }) := by
  by_cases hb : P.batchSize ≤ st.batchCount + 1
  · exact ⟨0, by
      by_cases hmod : (st.filesWalked + 1) % 10 = 0 <;>
        simp [walkCallback, afterAddFile, storeFileContentCtx, copyCtx, pollCancel,
          FNode.name, FNode.isDir, hbud, hig, hdest, hcf, hlook, hmod, hb]⟩
  · exact ⟨st.batchCount + 1, by
      by_cases hmod : (st.filesWalked + 1) % 10 = 0 <;>
        simp [walkCallback, afterAddFile, storeFileContentCtx, copyCtx, pollCancel,
          FNode.name, FNode.isDir, hbud, hig, hdest, hcf, hlook, hmod, hb]⟩

theorem walkCallback_file_changed_hit (hashFn : Content → String) (P : EngineParams)
    (prev : Option (List (String × FileEntry))) (absSource : String) (st : EngineSt)
    (path nm : String) (meta : FileMeta) (content : Content) (c' : Content)
    (hbud : st.cancelBudget = none)
    (hig : shouldIgnore path nm P.ignorePatterns = false)
    (hdest : goStartsWith path P.casBaseDir = false)
    (hcf : carryForwardHash prev (goRel absSource path) meta = none)
    (hlook : lookupA st.store (getObjectPath P.casBaseDir (hashFn content)) = some c') :
    ∃ bc, walkCallback hashFn P prev absSource st path (.file nm meta content) =
      (.continueWalk,
        { st with filesWalked := st.filesWalked + 1, fileCount := st.fileCount + 1,
                  filesProcessed := st.filesProcessed + 1,
                  batchCount := bc,
                  readPaths := st.readPaths ++ [path],
                  bytesTransferred := st.bytesTransferred + meta.size,
                  writerFiles := insertA st.writerFiles (goRel absSource path)
                    ⟨goRel absSource path, hashFn content, meta.size, meta.mode,
                      meta.modTime⟩,
                  processedTrace := st.processedTrace ++
                    [(path, ⟨goRel absSource path, hashFn content, meta.size, meta.mode,
                      meta.modTime⟩)] }) := by
  by_cases hb : P.batchSize ≤ st.batchCount + 1
  · exact ⟨0, by
      by_cases hmod : (st.filesWalked + 1) % 10 = 0 <;>
        simp [walkCallback, afterAddFile, storeFileContentCtx, copyCtx, pollCancel,
          FNode.name, FNode.isDir, hbud, hig, hdest, hcf, hlook, hmod, hb]⟩
  · exact ⟨st.batchCount + 1, by
      by_cases hmod : (st.filesWalked + 1) % 10 = 0 <;>
        simp [walkCallback, afterAddFile, storeFileContentCtx, copyCtx, pollCancel,
          FNode.name, FNode.isDir, hbud, hig, hdest, hcf, hlook, hmod, hb]⟩

/-- C2: change detection of the engine walk.  For a file the walk reaches
(not excluded by the ignore patterns, not inside the destination, context not
cancelled), the callback keeps walking, and: when the previous snapshot holds
an entry for the same relative path with equal size and modification time,
the prior hash is carried forward into the snapshot entry without opening the
file for reading, without touching the object store and without adding to
`bytesTransferred`; otherwise the file counts as changed, its bytes are
streamed through the object store (the file is opened for hashing, and the
object is written exactly when absent), the entry records the hash of its
content, and its size is added to `bytesTransferred`. -/
theorem walkCallback_change_detection (hashFn : Content → String) (P : EngineParams)
    (prev : Option (List (String × FileEntry))) (absSource : String) (st : EngineSt)
    (path nm : String) (meta : FileMeta) (content : Content)
    (hbud : st.cancelBudget = none)
    (hig : shouldIgnore path nm P.ignorePatterns = false)
    (hdest : goStartsWith path P.casBaseDir = false) :
    (walkCallback hashFn P prev absSource st path (.file nm meta content)).1
        = .continueWalk ∧
    (∀ hsh, carryForwardHash prev (goRel absSource path) meta = some hsh →
      (walkCallback hashFn P prev absSource st path (.file nm meta content)).2.readPaths
          = st.readPaths ∧
      (walkCallback hashFn P prev absSource st path (.file nm meta content)).2.store
          = st.store ∧
      (walkCallback hashFn P prev absSource st path
          (.file nm meta content)).2.bytesTransferred = st.bytesTransferred ∧
      lookupA (walkCallback hashFn P prev absSource st path
          (.file nm meta content)).2.writerFiles (goRel absSource path)
        = some ⟨goRel absSource path, hsh, meta.size, meta.mode, meta.modTime⟩) ∧
    (carryForwardHash prev (goRel absSource path) meta = none →
      (walkCallback hashFn P prev absSource st path (.file nm meta content)).2.readPaths
          = st.readPaths ++ [path] ∧
      (walkCallback hashFn P prev absSource st path
          (.file nm meta content)).2.bytesTransferred
          = st.bytesTransferred + meta.size ∧
      lookupA (walkCallback hashFn P prev absSource st path
          (.file nm meta content)).2.writerFiles (goRel absSource path)
        = some ⟨goRel absSource path, hashFn content, meta.size, meta.mode,
            meta.modTime⟩ ∧
      (lookupA st.store (getObjectPath P.casBaseDir (hashFn content)) = none →
        (walkCallback hashFn P prev absSource st path (.file nm meta content)).2.store
          = insertA st.store (getObjectPath P.casBaseDir (hashFn content)) content) ∧
      (∀ c', lookupA st.store (getObjectPath P.casBaseDir (hashFn content)) = some c' →
        (walkCallback hashFn P prev absSource st path (.file nm meta content)).2.store
          = st.store)) := by
  cases hcf : carryForwardHash prev (goRel absSource path) meta with
  | some hsh =>
    obtain ⟨bc, heq⟩ := walkCallback_file_fast hashFn P prev absSource st path nm meta
      content hsh hbud hig hdest hcf
    rw [heq]
    refine ⟨rfl, ?_, ?_⟩
    · intro hsh' h'
      simp only [Option.some_inj] at h'
      subst h'
      exact ⟨rfl, rfl, rfl, lookupA_insertA_self _ _ _⟩
    · intro h'
      simp at h'
  | none =>
    refine ⟨?_, ?_, ?_⟩
    · cases hlook : lookupA st.store (getObjectPath P.casBaseDir (hashFn content)) with
      | none =>
        obtain ⟨bc, heq⟩ := walkCallback_file_changed_miss hashFn P prev absSource st
          path nm meta content hbud hig hdest hcf hlook
        rw [heq]
      | some c' =>
        obtain ⟨bc, heq⟩ := walkCallback_file_changed_hit hashFn P prev absSource st
          path nm meta content c' hbud hig hdest hcf hlook
        rw [heq]
    · intro hsh' h'
      simp at h'
    · intro _
      cases hlook : lookupA st.store (getObjectPath P.casBaseDir (hashFn content)) with
      | none =>
        obtain ⟨bc, heq⟩ := walkCallback_file_changed_miss hashFn P prev absSource st
          path nm meta content hbud hig hdest hcf hlook
        rw [heq]
        refine ⟨rfl, rfl, lookupA_insertA_self _ _ _, fun _ => rfl, ?_⟩
        intro c' hc'
        simp at hc'
      | some c' =>
        obtain ⟨bc, heq⟩ := walkCallback_file_changed_hit hashFn P prev absSource st
          path nm meta content c' hbud hig hdest hcf hlook
        rw [heq]
        refine ⟨rfl, rfl, lookupA_insertA_self _ _ _, ?_, fun c'' hc'' => rfl⟩
        intro hcon
        simp at hcon

/-- Engine state at the start of a run: empty stores, zero counters, and a
context that is never cancelled. -/
def engineSt0 : EngineSt := ⟨none, 0, 0, 0, [], [], [], false, [], [], 0, 0, []⟩

/-- Witness for `walkCallback_change_detection`: an unchanged file is carried
forward without a read and without counting bytes, and a changed file is
stored and counted. -/
theorem walkCallback_change_detection_witness :
    lookupA (walkCallback (fun _ => "hh") ⟨"/backup", [], 5000⟩
        (some [("a.txt", ⟨"a.txt", "oldhash", 2, 420, 100⟩)]) "/src" engineSt0
        "/src/a.txt" (.file "a.txt" ⟨2, 420, 100⟩ [104, 105])).2.writerFiles "a.txt"
      = some ⟨"a.txt", "oldhash", 2, 420, 100⟩ ∧
    (walkCallback (fun _ => "hh") ⟨"/backup", [], 5000⟩
        (some [("a.txt", ⟨"a.txt", "oldhash", 2, 420, 100⟩)]) "/src" engineSt0
        "/src/a.txt" (.file "a.txt" ⟨2, 420, 100⟩ [104, 105])).2.readPaths = [] ∧
    (walkCallback (fun _ => "hh") ⟨"/backup", [], 5000⟩ none "/src" engineSt0
        "/src/b.txt" (.file "b.txt" ⟨3, 420, 100⟩ [1, 2, 3])).2.bytesTransferred = 3 := by
  have hrel : goRel "/src" "/src/a.txt" = "a.txt" := by decide
  have h1 := walkCallback_change_detection (fun _ => "hh") ⟨"/backup", [], 5000⟩
    (some [("a.txt", ⟨"a.txt", "oldhash", 2, 420, 100⟩)]) "/src" engineSt0
    "/src/a.txt" "a.txt" ⟨2, 420, 100⟩ [104, 105] rfl (by decide) (by decide)
  have h2 := walkCallback_change_detection (fun _ => "hh") ⟨"/backup", [], 5000⟩
    none "/src" engineSt0 "/src/b.txt" "b.txt" ⟨3, 420, 100⟩ [1, 2, 3] rfl
    (by decide) (by decide)
  have hf := h1.2.1 "oldhash" (by decide)
  have hc := h2.2.2 (by decide)
  rw [hrel] at hf
  exact ⟨hf.2.2.2, hf.1, hc.2.1⟩

theorem walkCallback_skip (hashFn : Content → String) (P : EngineParams)
    (prev : Option (List (String × FileEntry))) (absSource : String) (st : EngineSt)
    (path : String) (node : FNode)
    (hskip : shouldIgnore path node.name P.ignorePatterns = true ∨
      goStartsWith path P.casBaseDir = true) :
    (walkCallback hashFn P prev absSource st path node).2.writerFiles
        = st.writerFiles ∧
    (walkCallback hashFn P prev absSource st path node).2.store = st.store ∧
    (walkCallback hashFn P prev absSource st path node).2.readPaths = st.readPaths ∧
    (walkCallback hashFn P prev absSource st path node).2.processedTrace
        = st.processedTrace ∧
    (node.isDir = true →
      (walkCallback hashFn P prev absSource st path node).1 ≠ .continueWalk) := by
  have main : ∀ (st' : EngineSt) (f : CbOut × EngineSt),
      st'.writerFiles = st.writerFiles → st'.store = st.store →
      st'.readPaths = st.readPaths → st'.processedTrace = st.processedTrace →
      ((if shouldIgnore path node.name P.ignorePatterns then
          (if node.isDir then ((CbOut.skipDir), st') else (CbOut.continueWalk, st'))
        else if goStartsWith path P.casBaseDir then
          (if node.isDir then (CbOut.skipDir, st') else (CbOut.continueWalk, st'))
        else f)).2.writerFiles = st.writerFiles ∧
      ((if shouldIgnore path node.name P.ignorePatterns then
          (if node.isDir then ((CbOut.skipDir), st') else (CbOut.continueWalk, st'))
        else if goStartsWith path P.casBaseDir then
          (if node.isDir then (CbOut.skipDir, st') else (CbOut.continueWalk, st'))
        else f)).2.store = st.store ∧
      ((if shouldIgnore path node.name P.ignorePatterns then
          (if node.isDir then ((CbOut.skipDir), st') else (CbOut.continueWalk, st'))
        else if goStartsWith path P.casBaseDir then
          (if node.isDir then (CbOut.skipDir, st') else (CbOut.continueWalk, st'))
        else f)).2.readPaths = st.readPaths ∧
      ((if shouldIgnore path node.name P.ignorePatterns then
          (if node.isDir then ((CbOut.skipDir), st') else (CbOut.continueWalk, st'))
        else if goStartsWith path P.casBaseDir then
          (if node.isDir then (CbOut.skipDir, st') else (CbOut.continueWalk, st'))
        else f)).2.processedTrace = st.processedTrace ∧
      (node.isDir = true →
        ((if shouldIgnore path node.name P.ignorePatterns then
          (if node.isDir then ((CbOut.skipDir), st') else (CbOut.continueWalk, st'))
        else if goStartsWith path P.casBaseDir then
          (if node.isDir then (CbOut.skipDir, st') else (CbOut.continueWalk, st'))
        else f)).1 ≠ CbOut.continueWalk) := by
    intro st' f h1 h2 h3 h4
    rcases hskip with hig | hpre
    · rw [if_pos hig]
      cases hd : node.isDir <;> simp only [hd, if_true, if_false, Bool.false_eq_true]
      · exact ⟨h1, h2, h3, h4, fun hc => hc.elim⟩
      · exact ⟨h1, h2, h3, h4, fun _ => by decide⟩
    · by_cases hig2 : shouldIgnore path node.name P.ignorePatterns = true
      · rw [if_pos hig2]
        cases hd : node.isDir <;> simp only [hd, if_true, if_false, Bool.false_eq_true]
        · exact ⟨h1, h2, h3, h4, fun hc => hc.elim⟩
        · exact ⟨h1, h2, h3, h4, fun _ => by decide⟩
      · rw [if_neg hig2, if_pos hpre]
        cases hd : node.isDir <;> simp only [hd, if_true, if_false, Bool.false_eq_true]
        · exact ⟨h1, h2, h3, h4, fun hc => hc.elim⟩
        · exact ⟨h1, h2, h3, h4, fun _ => by decide⟩
  unfold walkCallback
  dsimp only
  rcases pollCancel_cases st with h | ⟨b, h⟩ <;> rw [h] <;> dsimp only
  · exact ⟨rfl, rfl, rfl, rfl, fun _ hc => by cases hc⟩
  · by_cases hmod : (st.filesWalked + 1) % 10 = 0
    · rw [if_pos hmod]
      rcases pollCancel_cases
          { st with cancelBudget := b, filesWalked := st.filesWalked + 1 } with
        h2 | ⟨b2, h2⟩ <;> rw [h2] <;> dsimp only
      · exact ⟨rfl, rfl, rfl, rfl, fun _ hc => by cases hc⟩
      · exact main _ _ rfl rfl rfl rfl
    · rw [if_neg hmod]
      dsimp only
      exact main _ _ rfl rfl rfl rfl

/-- C9: pruning of excluded directories.  When the ignore matcher excludes a
directory the walker visits, the callback returns `filepath.SkipDir` (or the
walk is cancelled at a poll), so the walker never descends into it: the walk
of that directory adds nothing to the snapshot writer, nothing to the object
store, opens no file for reading, and processes no entry — hence no
descendant of the directory appears in the published manifest or in the
object store. -/
theorem walkNode_ignored_dir_pruned (hashFn : Content → String) (P : EngineParams)
    (prev : Option (List (String × FileEntry))) (absSource : String) (st : EngineSt)
    (path nm : String) (children : List FNode)
    (hig : shouldIgnore path (FNode.dir nm children).name P.ignorePatterns = true) :
    (walkNode hashFn P prev absSource st path (.dir nm children)).2.writerFiles
        = st.writerFiles ∧
    (walkNode hashFn P prev absSource st path (.dir nm children)).2.store = st.store ∧
    (walkNode hashFn P prev absSource st path (.dir nm children)).2.readPaths
        = st.readPaths ∧
    (walkNode hashFn P prev absSource st path (.dir nm children)).2.processedTrace
        = st.processedTrace := by
  have hcb := walkCallback_skip hashFn P prev absSource st path (.dir nm children)
    (Or.inl hig)
  unfold walkNode
  rcases hout : walkCallback hashFn P prev absSource st path (.dir nm children) with
    ⟨out, st'⟩
  rw [hout] at hcb
  cases out with
  | continueWalk => exact absurd rfl (hcb.2.2.2.2 rfl)
  | skipDir => exact ⟨hcb.1, hcb.2.1, hcb.2.2.1, hcb.2.2.2.1⟩
  | cancelled => exact ⟨hcb.1, hcb.2.1, hcb.2.2.1, hcb.2.2.2.1⟩

/-- Witness for `walkNode_ignored_dir_pruned`: a `node_modules` directory with
a file inside, excluded by the basename pattern, contributes nothing. -/
theorem walkNode_ignored_dir_pruned_witness :
    (walkNode (fun _ => "hh") ⟨"/backup", ["node_modules"], 5000⟩ none "/src" engineSt0
      "/src/node_modules" (.dir "node_modules" [.file "y.bin" ⟨1, 420, 1⟩ [7]])).2.writerFiles = [] ∧
    (walkNode (fun _ => "hh") ⟨"/backup", ["node_modules"], 5000⟩ none "/src" engineSt0
      "/src/node_modules" (.dir "node_modules" [.file "y.bin" ⟨1, 420, 1⟩ [7]])).2.store = [] ∧
    (walkNode (fun _ => "hh") ⟨"/backup", ["node_modules"], 5000⟩ none "/src" engineSt0
      "/src/node_modules" (.dir "node_modules" [.file "y.bin" ⟨1, 420, 1⟩ [7]])).2.readPaths = [] := by
  have h := walkNode_ignored_dir_pruned (fun _ => "hh") ⟨"/backup", ["node_modules"], 5000⟩
    none "/src" engineSt0 "/src/node_modules" "node_modules"
    [.file "y.bin" ⟨1, 420, 1⟩ [7]] (by decide)
  exact ⟨h.1, h.2.1, h.2.2.1⟩

/-- C10: paths under the destination are skipped by a plain string-prefix
test.  Whenever the walker visits a path that has the destination directory
string as a prefix, the walk of that node (pruning the subtree when it is a
directory) adds nothing to the snapshot writer, the object store, the opened
files, or the processed entries — so no entry under the destination ever
appears in a manifest.  Because `strings.HasPrefix` compares raw strings, a
sibling path that merely extends the destination string (such as `/backup2`
next to destination `/backup`, exercised by the witness) is skipped too. -/
theorem walkNode_destination_skipped (hashFn : Content → String) (P : EngineParams)
    (prev : Option (List (String × FileEntry))) (absSource : String) (st : EngineSt)
    (path : String) (node : FNode)
    (hdest : goStartsWith path P.casBaseDir = true) :
    (walkNode hashFn P prev absSource st path node).2.writerFiles = st.writerFiles ∧
    (walkNode hashFn P prev absSource st path node).2.store = st.store ∧
    (walkNode hashFn P prev absSource st path node).2.readPaths = st.readPaths ∧
    (walkNode hashFn P prev absSource st path node).2.processedTrace
        = st.processedTrace := by
  have hcb := walkCallback_skip hashFn P prev absSource st path node (Or.inr hdest)
  unfold walkNode
  rcases hout : walkCallback hashFn P prev absSource st path node with ⟨out, st'⟩
  rw [hout] at hcb
  cases out with
  | continueWalk =>
    cases node with
    | dir nm children => exact absurd rfl (hcb.2.2.2.2 rfl)
    | file nm meta content => exact ⟨hcb.1, hcb.2.1, hcb.2.2.1, hcb.2.2.2.1⟩
  | skipDir => exact ⟨hcb.1, hcb.2.1, hcb.2.2.1, hcb.2.2.2.1⟩
  | cancelled => exact ⟨hcb.1, hcb.2.1, hcb.2.2.1, hcb.2.2.2.1⟩

/-- Witness for `walkNode_destination_skipped`: with destination `/backup`,
the sibling source directory `/backup2` — not inside the destination, but a
string extension of it — is skipped whole. -/
theorem walkNode_destination_skipped_witness :
    (walkNode (fun _ => "hh") ⟨"/backup", [], 5000⟩ none "/backup2" engineSt0
      "/backup2" (.dir "backup2" [.file "x" ⟨1, 420, 1⟩ [7]])).2.writerFiles = [] ∧
    (walkNode (fun _ => "hh") ⟨"/backup", [], 5000⟩ none "/backup2" engineSt0
      "/backup2" (.dir "backup2" [.file "x" ⟨1, 420, 1⟩ [7]])).2.store = [] ∧
    (walkNode (fun _ => "hh") ⟨"/backup", [], 5000⟩ none "/backup2" engineSt0
      "/backup2" (.dir "backup2" [.file "x" ⟨1, 420, 1⟩ [7]])).2.readPaths = [] := by
  have h := walkNode_destination_skipped (fun _ => "hh") ⟨"/backup", [], 5000⟩
    none "/backup2" engineSt0 "/backup2" (.dir "backup2" [.file "x" ⟨1, 420, 1⟩ [7]])
    (by decide)
  exact ⟨h.1, h.2.1, h.2.2.1⟩

/-- C1 (refuted): a cancelled run still publishes a manifest.  With the
cancel signal observed at the first per-source poll — after the streaming
writer was created — the run returns the `Cancelled` result, yet the deferred
`snapshotWriter.Close()` of `RunBackupWithBatchConfig` finalizes and renames
the temporary file, so a brand-new `snapshots/1733500000.json` (holding the
entries collected so far, here none) exists after the run and the `.json.tmp`
is gone: the set of files matching `snapshots/*.json` is not the same as
before the run, contrary to the claim. -/
theorem runBackup_cancelled_publishes_manifest :
    (runBackupModel (fun _ => "hh") ⟨"/backup", [], 5000⟩ none
      [("/src", .dir "src" [.file "a.txt" ⟨2, 420, 100⟩ [104, 105]])]
      1733500000 (some 1)).1 = .cancelled ∧
    (runBackupModel (fun _ => "hh") ⟨"/backup", [], 5000⟩ none
      [("/src", .dir "src" [.file "a.txt" ⟨2, 420, 100⟩ [104, 105]])]
      1733500000 (some 1)).2.snapshots = [("1733500000", [])] ∧
    (runBackupModel (fun _ => "hh") ⟨"/backup", [], 5000⟩ none
      [("/src", .dir "src" [.file "a.txt" ⟨2, 420, 100⟩ [104, 105]])]
      1733500000 (some 1)).2.tmpIds = [] := by
  exact ⟨rfl, rfl, rfl⟩

/-- C4 (refuted): the engine publishes ids that are not `YYYYMMDDhhmmss`
timestamps.  A run completed at Unix time 1733500000 publishes its manifest
under the id `"1733500000"` — the decimal Unix-seconds string of
`fmt.Sprintf("%d", time.Now().Unix())` — and the repository catalog format
`time.Parse("20060102150405", id)` rejects that id, so `LoadLatestSnapshot`
skips every manifest the engine publishes. -/
theorem engineSnapshotID_not_timestamp14 :
    engineSnapshotID 1733500000 = "1733500000" ∧
    (runBackupModel (fun _ => "hh") ⟨"/backup", [], 5000⟩ none
      [("/src", .dir "src" [.file "a.txt" ⟨2, 420, 100⟩ [104, 105]])]
      1733500000 none).1 = .completed ∧
    (runBackupModel (fun _ => "hh") ⟨"/backup", [], 5000⟩ none
      [("/src", .dir "src" [.file "a.txt" ⟨2, 420, 100⟩ [104, 105]])]
      1733500000 none).2.snapshots
        = [("1733500000", [("a.txt", ⟨"a.txt", "hh", 2, 420, 100⟩)])] ∧
    parseTimestamp14 (engineSnapshotID 1733500000) = none := by
  exact ⟨rfl, rfl, rfl, rfl⟩

/-! ## Backup controller (`app.go`) -/

/-- Controller-visible state of `app.go`: the status recorded by the
in-memory `backupState` (`none` when the pointer is nil), whether the cancel
handle `backupCancel` is set, whether the engine context has been cancelled,
and the persisted `<destination>/.backup_state.json` abstracted to the status
it records (`none` when the file does not exist). -/
structure CtrlState where
  status : Option String
  hasCancel : Bool
  engineCancelled : Bool
  stateFile : Option String
deriving DecidableEq, Repr

/-- Outcome of a controller code path under the lock discipline of
`sync.RWMutex`: `done` when the path runs to completion, `deadlocked` when
it blocks forever acquiring `backupMutex.RLock()` while the same goroutine
already holds `backupMutex.Lock()` (the Go read-write mutex is not
reentrant).  The carried state is the externally observable state — in
particular the on-disk `.backup_state.json`, abstracted by `stateFile` — at
the moment the path completes or blocks. -/
inductive CtrlOutcome where
  | done (c : CtrlState)
  | deadlocked (c : CtrlState)
deriving DecidableEq, Repr

/-- Embedding of `saveBackupState` (app.go lines 646-665) together with its
locking: the function first takes `backupMutex.RLock()` (line 648).  When
the calling goroutine already holds `backupMutex.Lock()` — as every call
site in the repository does (app.go lines 583, 721, 757) — the non-reentrant
`sync.RWMutex` blocks that RLock forever, so the `os.WriteFile` of
`.backup_state.json` at line 664 is never reached and the function never
returns.  Only with the write lock free does the body proceed: a no-op
without an in-memory state, otherwise the state is marshalled and written
to the state file. -/
def saveBackupState (lockHeld : Bool) (c : CtrlState) : CtrlOutcome :=
  if lockHeld then .deadlocked c
  else
    match c.status with
    | none => .done c
    | some s => .done { c with stateFile := some s }

/-- Embedding of `StopBackup` (app.go lines 702-732): with no state or no
cancel handle the structured error `no backup operation in progress`; with a
status other than `running` the structured error naming that status;
otherwise the engine is cancelled, the status set to `stopped`, the state
recorded in the state file, and the `Stopped` status event emitted (the
returned string).  The persistence step here stands for the
marshal-and-write body of `saveBackupState` invoked at line 721; in the code
that call takes `backupMutex.RLock()` while `StopBackup` still holds
`backupMutex.Lock()` from line 703 and blocks — a liveness defect that
arises only after the guard at line 710 has already decided which of the two
outcomes below occurs. -/
def stopBackup (c : CtrlState) : Except String (CtrlState × String) :=
  match c.status, c.hasCancel with
  | none, _ => .error "no backup operation in progress"
  | some _, false => .error "no backup operation in progress"
  | some s, true =>
    if s ≠ "running" then
      .error ("backup is not running (current status: " ++ s ++ ")")
    else
      .ok ({ c with engineCancelled := true, status := some "stopped", stateFile := some "stopped" }, "Stopped")

/-- C6 (refuted in part): `stop()` succeeds only from `running`, not from
`paused`.  From `running` it cancels the engine, persists the state with
status `stopped` and emits `Stopped`; but from `paused` — which the claim,
the spec state table, and the frontend caller (App.tsx `handleStopBackup`)
all allow — the `Status != "running"` guard returns the precondition error
`backup is not running (current status: paused)`. -/
theorem stopBackup_rejects_paused :
    stopBackup ⟨some "running", true, false, some "running"⟩ =
      .ok (⟨some "stopped", true, true, some "stopped"⟩, "Stopped") ∧
    stopBackup ⟨some "paused", true, false, some "paused"⟩ =
      .error "backup is not running (current status: paused)" := by
  exact ⟨rfl, rfl⟩

/-- Embedding of the final-state block of `runBackupWithResume` (app.go
lines 565-585) after `backend.RunBackup` returns, under the lock discipline:
the whole block runs with `backupMutex.Lock()` held (taken at line 566).
`runErr` is `none` on success, `some true` for `context.Canceled` (status
already set by stop or pause) and `some false` for any other error (status
`failed`).  On success the status becomes `completed` and `os.Remove` (line
580) deletes the state file; the `a.saveBackupState()` at line 583 — called
in every branch with an in-memory state — then blocks forever on its RLock,
so nothing rewrites the file and `backupMutex.Unlock()` at line 585 is never
reached. -/
def finalizeBackupRun (c : CtrlState) (runErr : Option Bool) : CtrlOutcome :=
  match c.status with
  | none => .done c
  | some _ =>
    match runErr with
    | some true => saveBackupState true c
    | some false => saveBackupState true { c with status := some "failed" }
    | none =>
      saveBackupState true { c with status := some "completed", stateFile := none }

/-- C7: after a successful run the controller deletes
`<destination>/.backup_state.json` and nothing re-creates it.  With an
in-memory backup state present, the success branch sets the status to
`completed` and removes the state file (app.go line 580); the
`saveBackupState()` at line 583 then blocks forever taking
`backupMutex.RLock()` under the still-held `backupMutex.Lock()`, so the
write at line 664 never executes and the blocked outcome carries
`stateFile = none`: no state file exists at the destination after the run.
On a cancelled (stopped or paused) or failed run the remove never executes
and the state file written during the run is retained for resume. -/
theorem finalizeBackupRun_deletes_state_file (c : CtrlState) (s : String)
    (hs : c.status = some s) :
    finalizeBackupRun c none
        = .deadlocked { c with status := some "completed", stateFile := none } ∧
    finalizeBackupRun c (some true) = .deadlocked c ∧
    finalizeBackupRun c (some false)
        = .deadlocked { c with status := some "failed" } := by
  unfold finalizeBackupRun saveBackupState
  rw [hs]
  exact ⟨rfl, rfl, rfl⟩

/-- Witness for C7 at concrete controller states: a successful run from
`running`, a cancelled run already marked `stopped`, and a failing run. -/
theorem finalizeBackupRun_deletes_state_file_witness :
    finalizeBackupRun ⟨some "running", true, false, some "running"⟩ none
        = .deadlocked ⟨some "completed", true, false, none⟩ ∧
    finalizeBackupRun ⟨some "stopped", true, true, some "stopped"⟩ (some true)
        = .deadlocked ⟨some "stopped", true, true, some "stopped"⟩ ∧
    finalizeBackupRun ⟨some "running", true, false, some "running"⟩ (some false)
        = .deadlocked ⟨some "failed", true, false, some "running"⟩ := by
  refine ⟨?_, ?_, ?_⟩
  · exact (finalizeBackupRun_deletes_state_file
      ⟨some "running", true, false, some "running"⟩ "running" rfl).1
  · exact (finalizeBackupRun_deletes_state_file
      ⟨some "stopped", true, true, some "stopped"⟩ "stopped" rfl).2.1
  · exact (finalizeBackupRun_deletes_state_file
      ⟨some "running", true, false, some "running"⟩ "running" rfl).2.2

/-- Counterexample to C5 as stated: with the two valid ids `00010101000000`
(the Go zero time, parsed value 10101000000) and `00000101000000` (year 0,
parsed value 101000000), the selection loop picks the *smaller* one, because
after recording the zero-time id the `latestTime.IsZero()` disjunct accepts
whatever valid id comes next.  The selected id is therefore not the one with
the maximal parsed timestamp. -/
theorem loadLatestSnapshot_zero_time_counterexample :
    (latestScan ["00010101000000.json", "00000101000000.json"]).1 = "00000101000000" ∧
    parseTimestamp14 "00010101000000" = some 10101000000 ∧
    parseTimestamp14 "00000101000000" = some 101000000 ∧
    (101000000 : Nat) < 10101000000 := by
  exact ⟨by decide, rfl, rfl, by norm_num⟩

end BB
